import Mathlib

/-!
Verification development for the function-plotting program
(`ConsoleApplication7.cpp`).  C++ `double` values are modelled as real
numbers; C++ strings are modelled as `List Char`; the platform's
double-to-text formatting used by the stream operators is modelled by
abstract `render`/`parse` parameters, with explicit hypotheses stating
that the written numeric text representation round-trips.
-/

namespace Plotting

/-- Embeds `class Point` (two `double` members `x`, `y`). -/
structure Point where
  x : ℝ
  y : ℝ

/-- Embeds `class Range` (two `double` members `min`, `max`). -/
structure Range where
  min : ℝ
  max : ℝ

/-- Embeds `class PolynomialFunction` (member `std::vector<double> coefficients`). -/
structure PolynomialFunction where
  coefficients : List ℝ

/-- Embeds `PolynomialFunction::evaluate`: starts from `result = 0` and, for
`i` from `0` to `coefficients.size() - 1`, adds `coefficients[i] * pow(x, i)`
(`std::pow` at a natural exponent is the monoid power `x ^ i`). -/
noncomputable def PolynomialFunction.evaluate (f : PolynomialFunction) (x : ℝ) : ℝ :=
  (List.range f.coefficients.length).foldl
    (fun result i => result + f.coefficients.getD i 0 * x ^ i) 0

/-- Embeds `class TrigonometricFunction` (members `type`, `amplitude`,
`frequency`, `phaseShift`). -/
structure TrigonometricFunction where
  type : String
  amplitude : ℝ
  frequency : ℝ
  phaseShift : ℝ

/-- Embeds `TrigonometricFunction::evaluate`: dispatches on the `type`
string, returning `amplitude * sin(frequency*x + phaseShift)` for `"sin"`,
the cosine analogue for `"cos"`, and `0.0` for any other type. -/
noncomputable def TrigonometricFunction.evaluate (f : TrigonometricFunction) (x : ℝ) : ℝ :=
  if f.type = "sin" then f.amplitude * Real.sin (f.frequency * x + f.phaseShift)
  else if f.type = "cos" then f.amplitude * Real.cos (f.frequency * x + f.phaseShift)
  else 0

/-- Embeds `class ExponentialFunction`; the members are declared in the order
`base, coefficient`, while the constructor takes `(coefficient, base)`. -/
structure ExponentialFunction where
  base : ℝ
  coefficient : ℝ

/-- Embeds `ExponentialFunction::evaluate`, `coefficient * std::pow(base, x)`;
`std::pow` at a real exponent is modelled as `Real.rpow` (exact for positive
bases, the mathematical reading of the power function). -/
noncomputable def ExponentialFunction.evaluate (f : ExponentialFunction) (x : ℝ) : ℝ :=
  f.coefficient * Real.rpow f.base x

/-- Embeds `class Graph` (members `std::vector<Point> points` and
`Function* function`).  The function pointer is modelled as a real function;
the claims under study only dereference it through `generatePoints`. -/
structure Graph where
  points : List Point
  function : ℝ → ℝ

/-- Embeds the default constructor `Graph()`: the point vector starts empty.
The C++ default constructor leaves the `function` pointer uninitialized and
no code path dereferences it on a default-constructed graph; it is modelled
here by the zero function, which no theorem observes. -/
noncomputable def emptyGraph : Graph :=
  ⟨[], fun _ => 0⟩

/-- Embeds the loop body of `Graph::generatePoints`: `step` is
`(xRange.max - xRange.min) / numPoints` and, for `i` from `0` to `numPoints`
inclusive, the point `(x, f x)` with `x = xRange.min + i * step` is appended
to an initially cleared vector.  `int numPoints` is modelled as `ℕ` (the
claims only concern `numPoints ≥ 1`). -/
noncomputable def samplePoints (f : ℝ → ℝ) (xRange : Range) (numPoints : ℕ) : List Point :=
  let step := (xRange.max - xRange.min) / (numPoints : ℝ)
  (List.range (numPoints + 1)).foldl
    (fun acc i => acc ++ [⟨xRange.min + (i : ℝ) * step, f (xRange.min + (i : ℝ) * step)⟩]) []

/-- Embeds `Graph::generatePoints`: clears `points` and refills it by the
sampling loop; every other member is untouched. -/
noncomputable def Graph.generatePoints (g : Graph) (xRange : Range) (numPoints : ℕ) : Graph :=
  { g with points := samplePoints g.function xRange numPoints }

/-- Embeds the coordinate mapping used in `GraphPlotter::plot`: a sampled
point `(x, y)` is drawn at pixel position `(x * 20 + 400, -y * 20 + 300)`. -/
noncomputable def pixelOfPoint (p : Point) : ℝ × ℝ :=
  (p.x * 20 + 400, -p.y * 20 + 300)

/-- Modelled from the spec: the coordinate mapper with named constants
`scale = 20`, `originPixelX = 400`, `originPixelY = 300`, mapping `(x, y)`
to `(x*scale + originPixelX, -y*scale + originPixelY)`. -/
noncomputable def mapperSpec (p : Point) : ℝ × ℝ :=
  let scale : ℝ := 20
  let originPixelX : ℝ := 400
  let originPixelY : ℝ := 300
  (p.x * scale + originPixelX, -p.y * scale + originPixelY)

/-- Embeds the whitespace-skipping token extraction `while (iss >> point)`
of `Graph::deserialize`: `cur` accumulates (reversed) the characters of the
token being read, and each maximal run of non-whitespace characters becomes
one token. -/
def wordsAux : List Char → List Char → List (List Char)
  | cur, [] => if cur = [] then [] else [cur.reverse]
  | cur, c :: cs =>
    if c.isWhitespace then
      if cur = [] then wordsAux [] cs else cur.reverse :: wordsAux [] cs
    else wordsAux (c :: cur) cs

/-- Tokens of a character stream, in extraction order. -/
def words (l : List Char) : List (List Char) :=
  wordsAux [] l

/-- Embeds a stream read up to (and consuming) the first occurrence of the
separator: returns the characters before it and the remaining characters.
Used both for `pointStream >> x >> comma >> y` on a well-formed `x,y` token
and for `std::getline` splitting the file into lines. -/
def breakAt (sep : Char) : List Char → List Char × List Char
  | [] => ([], [])
  | c :: cs =>
    if c = sep then ([], cs)
    else (c :: (breakAt sep cs).1, (breakAt sep cs).2)

/-- Embeds `pointStream >> x >> comma >> y` on a token of the shape written
by `Graph::serialize` (x-text, a literal comma, y-text): the token is split
at its first comma and the two halves are parsed as doubles by `parse`. -/
noncomputable def parsePoint (parse : List Char → ℝ) (tok : List Char) : Point :=
  ⟨parse (breakAt ',' tok).1, parse (breakAt ',' tok).2⟩

/-- Embeds `Graph::serialize`: for each point, in order, append
`x-text`, a comma, `y-text` and a trailing space to the output, where
`render` models the platform's default double-to-text formatting used by
`operator<<`. -/
noncomputable def Graph.serialize (render : ℝ → List Char) (g : Graph) : List Char :=
  g.points.foldl (fun out p => out ++ (render p.x ++ [','] ++ render p.y ++ [' '])) []

/-- Embeds `Graph::deserialize`: clears the point vector, then appends one
point per whitespace-separated token of the data, in order. -/
noncomputable def Graph.deserialize (parse : List Char → ℝ) (g : Graph) (data : List Char) :
    Graph :=
  { g with points := (words data).map (parsePoint parse) }

/-- Embeds the `while (std::getline(inFile, line))` loop: the content is cut
into lines at each newline character; a final segment without a trailing
newline still yields a line, and empty content yields no lines. -/
def linesOf (l : List Char) : List (List Char) :=
  match l with
  | [] => []
  | c :: cs => (breakAt '\n' (c :: cs)).1 :: linesOf (breakAt '\n' (c :: cs)).2
termination_by l.length
decreasing_by
  have key : ∀ (m : List Char), (breakAt '\n' m).2.length ≤ m.length := by
    intro m
    induction m with
    | nil => simp [breakAt]
    | cons d ds ih =>
      rw [breakAt]
      by_cases hd : d = '\n'
      · simp [hd]
      · simp only [if_neg hd, List.length_cons]
        omega
  rw [breakAt]
  by_cases hc : c = '\n'
  · simp [hc]
  · simp only [if_neg hc]
    have := key cs
    simp only [List.length_cons]
    omega

/-- Content seen by `std::ifstream`: a missing file (`none`) reads as empty. -/
def contentOf : Option (List Char) → List Char
  | none => []
  | some s => s

/-- Embeds `class CoordinateSystem` (members `xRange`, `yRange`). -/
structure CoordinateSystem where
  xRange : Range
  yRange : Range

/-- Embeds `CoordinateSystem::setRanges`. -/
def CoordinateSystem.setRanges (_ : CoordinateSystem) (newXRange newYRange : Range) :
    CoordinateSystem :=
  ⟨newXRange, newYRange⟩

/-- Embeds `class PlotArea` (members `coordinateSystem`, `graphs`). -/
structure PlotArea where
  coordinateSystem : CoordinateSystem
  graphs : List Graph

/-- Embeds `PlotArea::addGraph`: appends at the back. -/
def PlotArea.addGraph (a : PlotArea) (g : Graph) : PlotArea :=
  { a with graphs := a.graphs ++ [g] }

/-- Embeds `PlotArea::clear`: empties the graph vector. -/
def PlotArea.clear (a : PlotArea) : PlotArea :=
  { a with graphs := [] }

/-- Embeds `PlotArea::saveToFile`: writes `graph.serialize()` followed by a
newline (`std::endl`) for every graph, in order.  The method mutates no
member, so the resulting state is returned alongside the written content. -/
noncomputable def PlotArea.saveToFile (render : ℝ → List Char) (a : PlotArea) :
    List Char × PlotArea :=
  (a.graphs.foldl (fun out g => out ++ (Graph.serialize render g ++ ['\n'])) [], a)

/-- Embeds `PlotArea::loadFromFile`: clears the current graphs, then for each
line of the file, in order, deserializes a default-constructed graph from the
line and appends it.  The function is total: no error is signaled for a
missing or empty file. -/
noncomputable def PlotArea.loadFromFile (parse : List Char → ℝ) (a : PlotArea)
    (file : Option (List Char)) : PlotArea :=
  (linesOf (contentOf file)).foldl
    (fun area line => area.addGraph (Graph.deserialize parse emptyGraph line)) a.clear

/-- A double value whose written text representation round-trips: its
rendered text contains no whitespace and no comma (so tokenization cannot
cut through it) and parsing the rendered text yields the value back. -/
def GoodVal (render : ℝ → List Char) (parse : List Char → ℝ) (v : ℝ) : Prop :=
  (∀ c ∈ render v, c.isWhitespace = false ∧ c ≠ ',') ∧ parse (render v) = v

/-- Concrete rendering of a double used in witnesses: every value is written
as the single digit `0`. -/
def render0 : ℝ → List Char :=
  fun _ => ['0']

/-- Concrete parsing of a double used in witnesses: every text reads as `0`. -/
noncomputable def parse0 : List Char → ℝ :=
  fun _ => 0

/-- Concrete plot area used in witnesses: the default coordinate system of
`main` and a single one-point curve. -/
noncomputable def area0 : PlotArea :=
  ⟨⟨⟨-10, 10⟩, ⟨-10, 10⟩⟩, [⟨[⟨0, 0⟩], fun _ => 0⟩]⟩

/-- Concrete empty plot area used in witnesses. -/
noncomputable def fresh0 : PlotArea :=
  ⟨⟨⟨-10, 10⟩, ⟨-10, 10⟩⟩, []⟩

/-- Helper: a `foldl` that adds `g i` over `List.range n` starting from `c`
is `c` plus the sum of `g` over `Finset.range n`. -/
theorem foldl_add_range (g : ℕ → ℝ) (n : ℕ) (c : ℝ) :
    (List.range n).foldl (fun acc i => acc + g i) c = c + ∑ i in Finset.range n, g i := by
  induction n generalizing c with
  | zero => simp
  | succ n ih =>
    rw [List.range_succ, List.foldl_append, Finset.sum_range_succ, ih]
    simp [add_assoc]

/-- Helper: a fold that appends `f x` for each element is the initial list
followed by the concatenation of the images. -/
theorem foldl_append_eq_flatten {α β : Type} (f : α → List β) (l : List α) (init : List β) :
    l.foldl (fun out a => out ++ f a) init = init ++ (l.map f).flatten := by
  induction l generalizing init with
  | nil => simp
  | cons a l ih => simp [ih, List.append_assoc]

/-- Helper: flattening a list of singletons gives back the list. -/
theorem flatten_map_single {α β : Type} (f : α → β) (l : List α) :
    (l.map fun a => [f a]).flatten = l.map f := by
  induction l with
  | nil => rfl
  | cons a l ih => simp [ih]

/-- Helper: closed form of the sampling loop, as a map over `List.range`. -/
theorem samplePoints_eq_map (f : ℝ → ℝ) (r : Range) (n : ℕ) :
    samplePoints f r n =
      (List.range (n + 1)).map (fun (i : ℕ) =>
        (⟨r.min + (i : ℝ) * ((r.max - r.min) / (n : ℝ)),
          f (r.min + (i : ℝ) * ((r.max - r.min) / (n : ℝ)))⟩ : Point)) := by
  unfold samplePoints
  rw [foldl_append_eq_flatten, List.nil_append]
  exact flatten_map_single _ _

/-- Helper: length of the sampled point list. -/
theorem samplePoints_length (f : ℝ → ℝ) (r : Range) (n : ℕ) :
    (samplePoints f r n).length = n + 1 := by
  rw [samplePoints_eq_map]
  simp

/-- Helper: the i-th sampled point. -/
theorem samplePoints_getD (f : ℝ → ℝ) (r : Range) (n : ℕ) (i : ℕ) (hi : i ≤ n) :
    (samplePoints f r n).getD i ⟨0, 0⟩ =
      ⟨r.min + (i : ℝ) * ((r.max - r.min) / (n : ℝ)),
        f (r.min + (i : ℝ) * ((r.max - r.min) / (n : ℝ)))⟩ := by
  rw [samplePoints_eq_map]
  rw [List.getD_eq_getElem?_getD, List.getElem?_map, List.getElem?_range (by omega)]
  rfl

/-- C1: for every function, every range with `min < max` and every
`numPoints ≥ 1`, `Graph::generatePoints` replaces any previously held points
and produces exactly `numPoints + 1` points, the `i`-th being
`(min + i*step, f (min + i*step))` with `step = (max - min) / numPoints`;
the first point's x is `min` and the last point's x is `min + numPoints*step`. -/
theorem generatePoints_spec (g : Graph) (r : Range) (n : ℕ)
    (hr : r.min < r.max) (hn : 1 ≤ n) :
    ((g.generatePoints r n).points.length = n + 1)
    ∧ (∀ ps : List Point, ((Graph.mk ps g.function).generatePoints r n).points
         = (g.generatePoints r n).points)
    ∧ (∀ i : ℕ, i ≤ n → (g.generatePoints r n).points.getD i ⟨0, 0⟩ =
        ⟨r.min + (i : ℝ) * ((r.max - r.min) / (n : ℝ)),
          g.function (r.min + (i : ℝ) * ((r.max - r.min) / (n : ℝ)))⟩)
    ∧ (((g.generatePoints r n).points.getD 0 ⟨0, 0⟩).x = r.min)
    ∧ (((g.generatePoints r n).points.getD n ⟨0, 0⟩).x
        = r.min + (n : ℝ) * ((r.max - r.min) / (n : ℝ))) := by
  refine ⟨samplePoints_length _ _ _, fun ps => rfl, ?_, ?_, ?_⟩
  · intro i hi
    exact samplePoints_getD g.function r n i hi
  · rw [show (g.generatePoints r n).points = samplePoints g.function r n from rfl,
      samplePoints_getD g.function r n 0 (Nat.zero_le n)]
    simp
  · rw [show (g.generatePoints r n).points = samplePoints g.function r n from rfl,
      samplePoints_getD g.function r n n (le_refl n)]

/-- Witness for C1: a concrete range `(0, 2)` with two sampling intervals. -/
theorem generatePoints_spec_witness :
    ((Range.mk 0 2).min < (Range.mk 0 2).max ∧ 1 ≤ 2)
    ∧ ((Graph.mk [] fun x => x).generatePoints ⟨0, 2⟩ 2).points.length = 2 + 1 :=
  ⟨⟨show (0 : ℝ) < 2 by norm_num, by norm_num⟩,
    (generatePoints_spec (Graph.mk [] fun x => x) ⟨0, 2⟩ 2
      (show (0 : ℝ) < 2 by norm_num) (by norm_num)).1⟩

/-- C9: sampling is idempotent and deterministic: calling
`Graph::generatePoints` twice in succession with identical arguments on an
unchanged function leaves the very same curve state as the first call. -/
theorem generatePoints_idempotent (g : Graph) (r : Range) (n : ℕ) :
    (g.generatePoints r n).generatePoints r n = g.generatePoints r n := rfl

/-- C2: `PolynomialFunction::evaluate` computes the sum of
`coeffs[i] * x^i` over all coefficient indices, and returns `0` for the
empty coefficient list. -/
theorem polynomialEvaluate_spec (coeffs : List ℝ) (x : ℝ) :
    PolynomialFunction.evaluate ⟨coeffs⟩ x
      = ∑ i in Finset.range coeffs.length, coeffs.getD i 0 * x ^ i
    ∧ PolynomialFunction.evaluate ⟨[]⟩ x = 0 := by
  constructor
  · rw [PolynomialFunction.evaluate, foldl_add_range, zero_add]
  · rfl

/-- C3 counterexample: the polynomial with coefficients `[1, 0, -1]` is
`1 - x^2`, whose value at `x = 3` is `-8`, not `8` as the claim states. -/
theorem polynomialExample_counterexample :
    ¬ PolynomialFunction.evaluate ⟨[1, 0, -1]⟩ 3 = 8 := by
  simp [PolynomialFunction.evaluate, List.range_succ]
  norm_num

/-- C3 amended: the polynomial with coefficients `[1, 0, -1]` evaluated at
`x = 3` returns `-8`. -/
theorem polynomialExample_amended :
    PolynomialFunction.evaluate ⟨[1, 0, -1]⟩ 3 = -8 := by
  simp [PolynomialFunction.evaluate, List.range_succ]
  norm_num

/-- C6: `TrigonometricFunction::evaluate` returns
`amplitude * sin(frequency*x + phase)` for type `"sin"`, the cosine analogue
for type `"cos"`, and `0.0` as a defined fallback for every other type
string. -/
theorem trigEvaluate_spec (a f p x : ℝ) :
    TrigonometricFunction.evaluate ⟨"sin", a, f, p⟩ x = a * Real.sin (f * x + p)
    ∧ TrigonometricFunction.evaluate ⟨"cos", a, f, p⟩ x = a * Real.cos (f * x + p)
    ∧ ∀ t : String, t ≠ "sin" → t ≠ "cos" →
        TrigonometricFunction.evaluate ⟨t, a, f, p⟩ x = 0 := by
  refine ⟨rfl, rfl, fun t hsin hcos => ?_⟩
  rw [TrigonometricFunction.evaluate]
  simp only [if_neg hsin, if_neg hcos]

/-- Witness for C6: the unknown type `"tan"` falls back to the zero value. -/
theorem trigEvaluate_spec_witness :
    (("tan" : String) ≠ "sin" ∧ ("tan" : String) ≠ "cos")
    ∧ TrigonometricFunction.evaluate ⟨"tan", 1, 1, 0⟩ 0 = 0 :=
  ⟨⟨by decide, by decide⟩,
    (trigEvaluate_spec 1 1 0 0).2.2 ("tan") (by decide) (by decide)⟩

/-- C7: the coordinate mapper used when drawing produces
`pixelX = x*20 + 400` and `pixelY = -y*20 + 300`, agreeing with the spec's
scale-20, origin-(400,300), Y-flipped affine map. -/
theorem coordinateMapper_spec (x y : ℝ) :
    pixelOfPoint ⟨x, y⟩ = (x * 20 + 400, -y * 20 + 300)
    ∧ pixelOfPoint ⟨x, y⟩ = mapperSpec ⟨x, y⟩ :=
  ⟨rfl, rfl⟩

/-- C8: `ExponentialFunction::evaluate` returns `k * base^x` with no
validation of the base; the constructor stores `(coefficient, base)` into
the members `(base, coefficient)` declared in that order, so the function
built from `k = 2`, `base = 3` is `⟨3, 2⟩`, giving `2` at `x = 0` and `6`
at `x = 1`. -/
theorem exponentialEvaluate_spec (k b x : ℝ) :
    ExponentialFunction.evaluate ⟨b, k⟩ x = k * Real.rpow b x
    ∧ ExponentialFunction.evaluate ⟨3, 2⟩ 0 = 2
    ∧ ExponentialFunction.evaluate ⟨3, 2⟩ 1 = 6 := by
  refine ⟨rfl, ?_, ?_⟩
  · rw [ExponentialFunction.evaluate]
    simp [Real.rpow_zero]
  · rw [ExponentialFunction.evaluate]
    simp [Real.rpow_one]
    norm_num

/-- Helper: reading a run of non-whitespace characters accumulates them onto
the current token. -/
theorem wordsAux_accum (t : List Char) (ht : ∀ c ∈ t, c.isWhitespace = false)
    (cur rest : List Char) :
    wordsAux cur (t ++ rest) = wordsAux (t.reverse ++ cur) rest := by
  induction t generalizing cur with
  | nil => rfl
  | cons c t ih =>
    have hc : c.isWhitespace = false := ht c (List.mem_cons_self c t)
    rw [List.cons_append, wordsAux, hc]
    simp only [Bool.false_eq_true, if_false]
    rw [ih (fun d hd => ht d (List.mem_cons_of_mem c hd)) (c :: cur)]
    simp [List.append_assoc]

/-- Helper: a nonempty whitespace-free token followed by a space is
extracted as one token. -/
theorem wordsAux_token (t : List Char) (hne : t ≠ [])
    (ht : ∀ c ∈ t, c.isWhitespace = false) (rest : List Char) :
    wordsAux [] (t ++ ' ' :: rest) = t :: wordsAux [] rest := by
  rw [wordsAux_accum t ht [] (' ' :: rest), List.append_nil, wordsAux]
  have hsp : (' ').isWhitespace = true := by decide
  rw [hsp]
  simp only [if_true]
  rw [if_neg (by simpa using hne)]
  rw [List.reverse_reverse]

/-- Helper: tokenizing the concatenation of space-terminated, nonempty,
whitespace-free tokens recovers exactly those tokens. -/
theorem words_flatten (tokens : List (List Char))
    (h : ∀ t ∈ tokens, t ≠ [] ∧ ∀ c ∈ t, c.isWhitespace = false) :
    words ((tokens.map (fun t => t ++ [' '])).flatten) = tokens := by
  induction tokens with
  | nil => rfl
  | cons t ts ih =>
    obtain ⟨hne, ht⟩ := h t (List.mem_cons_self t ts)
    rw [List.map_cons, List.flatten_cons, List.append_assoc, List.singleton_append]
    rw [words] at ih ⊢
    rw [wordsAux_token t hne ht]
    rw [ih (fun u hu => h u (List.mem_cons_of_mem t hu))]

/-- Helper: splitting at the separator recovers the two halves when the
first half avoids the separator. -/
theorem breakAt_eq (sep : Char) (a b : List Char) (ha : ∀ c ∈ a, c ≠ sep) :
    breakAt sep (a ++ sep :: b) = (a, b) := by
  induction a with
  | nil => simp [breakAt]
  | cons c a ih =>
    have hc : c ≠ sep := ha c (List.mem_cons_self c a)
    rw [List.cons_append, breakAt, if_neg hc,
      ih (fun d hd => ha d (List.mem_cons_of_mem c hd))]

/-- Helper: closed form of `Graph::serialize` as the concatenation of the
space-terminated `x,y` tokens of the points. -/
theorem serialize_eq_flatten (render : ℝ → List Char) (g : Graph) :
    Graph.serialize render g
      = ((g.points.map (fun p => render p.x ++ ',' :: render p.y)).map
          (fun t => t ++ [' '])).flatten := by
  unfold Graph.serialize
  rw [foldl_append_eq_flatten, List.nil_append, List.map_map]
  congr 1
  refine List.map_congr_left ?_
  intro p _
  simp [List.append_assoc]

/-- Helper: a non-whitespace character is not the newline character. -/
theorem ne_newline_of_not_ws {c : Char} (h : c.isWhitespace = false) : c ≠ '\n' := by
  intro hc
  subst hc
  simp at h

/-- Helper: no character of a serialized graph is a newline, provided the
rendered coordinate texts contain no whitespace. -/
theorem serialize_no_newline (render : ℝ → List Char) (parse : List Char → ℝ) (g : Graph)
    (h : ∀ p ∈ g.points, GoodVal render parse p.x ∧ GoodVal render parse p.y) :
    ∀ c ∈ Graph.serialize render g, c ≠ '\n' := by
  intro c hc
  rw [serialize_eq_flatten, List.map_map] at hc
  rw [List.mem_flatten] at hc
  obtain ⟨t, ht, hct⟩ := hc
  rw [List.mem_map] at ht
  obtain ⟨p, hp, hpt⟩ := ht
  obtain ⟨hx, hy⟩ := h p hp
  subst hpt
  simp only [Function.comp_apply] at hct
  rcases List.mem_append.mp hct with h1 | h1
  · rcases List.mem_append.mp h1 with h2 | h2
    · exact ne_newline_of_not_ws (hx.1 c h2).1
    · rcases List.mem_cons.mp h2 with rfl | h3
      · decide
      · exact ne_newline_of_not_ws (hy.1 c h3).1
  · rcases List.mem_singleton.mp h1 with rfl
    decide

/-- Helper: deserializing a serialized point list recovers it, provided the
written numeric text of every coordinate round-trips. -/
theorem deserialize_serialize (render : ℝ → List Char) (parse : List Char → ℝ)
    (g g' : Graph)
    (h : ∀ p ∈ g.points, GoodVal render parse p.x ∧ GoodVal render parse p.y) :
    (Graph.deserialize parse g' (Graph.serialize render g)).points = g.points := by
  rw [Graph.deserialize, serialize_eq_flatten]
  show ((words _).map (parsePoint parse)) = g.points
  rw [words_flatten (g.points.map (fun p => render p.x ++ ',' :: render p.y)) ?tokens]
  case tokens =>
    intro t ht
    rw [List.mem_map] at ht
    obtain ⟨p, hp, hpt⟩ := ht
    obtain ⟨hx, hy⟩ := h p hp
    subst hpt
    refine ⟨by simp, fun c hc => ?_⟩
    simp only [List.mem_append, List.mem_cons] at hc
    rcases hc with hmem | rfl | hmem
    · exact (hx.1 c hmem).1
    · decide
    · exact (hy.1 c hmem).1
  rw [List.map_map]
  refine List.map_congr_left ?_ |>.trans (List.map_id g.points)
  intro p hp
  obtain ⟨hx, hy⟩ := h p hp
  simp only [Function.comp_apply]
  rw [parsePoint, breakAt_eq (',') (render p.x) (render p.y) (fun c hc => (hx.1 c hc).2)]
  show (⟨parse (render p.x), parse (render p.y)⟩ : Point) = p
  rw [hx.2, hy.2]

/-- Helper: a newline-free line followed by a newline character is read as
one line by the `getline` loop. -/
theorem linesOf_append (line rest : List Char) (h : ∀ c ∈ line, c ≠ '\n') :
    linesOf (line ++ '\n' :: rest) = line :: linesOf rest := by
  cases line with
  | nil =>
    rw [List.nil_append, linesOf]
    rw [breakAt, if_pos rfl]
  | cons c l =>
    have hb : breakAt ('\n') (c :: (l ++ '\n' :: rest)) = (c :: l, rest) := by
      rw [← List.cons_append]
      exact breakAt_eq ('\n') (c :: l) rest h
    rw [List.cons_append, linesOf, hb]

/-- Helper: cutting the concatenation of newline-terminated, newline-free
lines recovers exactly those lines. -/
theorem linesOf_flatten (ls : List (List Char))
    (h : ∀ l ∈ ls, ∀ c ∈ l, c ≠ '\n') :
    linesOf ((ls.map (fun l => l ++ ['\n'])).flatten) = ls := by
  induction ls with
  | nil => simp [linesOf]
  | cons l ls ih =>
    rw [List.map_cons, List.flatten_cons, List.append_assoc, List.singleton_append]
    rw [linesOf_append l _ (h l (List.mem_cons_self l ls))]
    rw [ih (fun u hu => h u (List.mem_cons_of_mem l hu))]

/-- Helper: folding `addGraph` appends the loaded graphs in order. -/
theorem foldl_addGraph (f : List Char → Graph) (a : PlotArea) (ls : List (List Char)) :
    (ls.foldl (fun area line => area.addGraph (f line)) a).graphs = a.graphs ++ ls.map f := by
  induction ls generalizing a with
  | nil => simp
  | cons l ls ih =>
    rw [List.foldl_cons, ih]
    simp [PlotArea.addGraph, List.append_assoc]

/-- Helper: the graphs produced by `PlotArea::loadFromFile` are exactly one
deserialized default graph per line of the file content, in file order. -/
theorem loadFromFile_graphs (parse : List Char → ℝ) (a : PlotArea)
    (file : Option (List Char)) :
    (PlotArea.loadFromFile parse a file).graphs
      = (linesOf (contentOf file)).map (Graph.deserialize parse emptyGraph) := by
  unfold PlotArea.loadFromFile
  rw [foldl_addGraph]
  rfl

/-- Helper: the file content written by `PlotArea::saveToFile` is the
concatenation of the newline-terminated serializations of the graphs. -/
theorem saveToFile_content (render : ℝ → List Char) (a : PlotArea) :
    (PlotArea.saveToFile render a).1
      = ((a.graphs.map (Graph.serialize render)).map (fun l => l ++ ['\n'])).flatten := by
  unfold PlotArea.saveToFile
  rw [foldl_append_eq_flatten, List.nil_append, List.map_map]
  rfl

/-- C4: serializing every curve of a collection (one line per curve, each
point written as `x,y`, tokens separated by spaces) and then deserializing
those lines into a fresh collection yields the same ordered sequence of
curves with the same ordered point sequences, exactly when the written
numeric text representation of every coordinate round-trips unchanged. -/
theorem save_load_roundtrip (render : ℝ → List Char) (parse : List Char → ℝ)
    (a fresh : PlotArea)
    (h : ∀ g ∈ a.graphs, ∀ p ∈ g.points,
      GoodVal render parse p.x ∧ GoodVal render parse p.y) :
    (PlotArea.loadFromFile parse fresh
        (some (PlotArea.saveToFile render a).1)).graphs.map Graph.points
      = a.graphs.map Graph.points := by
  rw [loadFromFile_graphs, saveToFile_content]
  rw [show contentOf (some (((a.graphs.map (Graph.serialize render)).map
      (fun l => l ++ ['\n'])).flatten)) = ((a.graphs.map (Graph.serialize render)).map
      (fun l => l ++ ['\n'])).flatten from rfl]
  rw [linesOf_flatten (a.graphs.map (Graph.serialize render)) ?lines]
  case lines =>
    intro l hl
    rw [List.mem_map] at hl
    obtain ⟨g, hg, hgl⟩ := hl
    subst hgl
    exact serialize_no_newline render parse g (h g hg)
  rw [List.map_map, List.map_map]
  refine List.map_congr_left ?_
  intro g hg
  simp only [Function.comp_apply]
  exact deserialize_serialize render parse g emptyGraph (h g hg)

/-- Witness for C4: a one-curve collection whose single point renders as
`0,0` and parses back. -/
theorem save_load_roundtrip_witness :
    (∀ g ∈ area0.graphs, ∀ p ∈ g.points,
      GoodVal render0 parse0 p.x ∧ GoodVal render0 parse0 p.y)
    ∧ (PlotArea.loadFromFile parse0 fresh0
        (some (PlotArea.saveToFile render0 area0).1)).graphs.map Graph.points
      = area0.graphs.map Graph.points := by
  have h : ∀ g ∈ area0.graphs, ∀ p ∈ g.points,
      GoodVal render0 parse0 p.x ∧ GoodVal render0 parse0 p.y := by
    intro g hg p hp
    rw [show area0.graphs = [⟨[⟨0, 0⟩], fun _ => 0⟩] from rfl] at hg
    rw [List.mem_singleton] at hg
    subst hg
    rw [List.mem_singleton] at hp
    subst hp
    exact ⟨⟨fun c hc => by rcases List.mem_singleton.mp hc with rfl; decide, rfl⟩,
      ⟨fun c hc => by rcases List.mem_singleton.mp hc with rfl; decide, rfl⟩⟩
  exact ⟨h, save_load_roundtrip render0 parse0 area0 fresh0 h⟩

/-- C5: `PlotArea::loadFromFile` first clears all existing curves and then
appends exactly one curve per line of the file, in file order; an empty or
missing file yields an empty collection, and no error is signaled (the
operation is total). -/
theorem loadFromFile_spec (parse : List Char → ℝ) (a : PlotArea)
    (file : Option (List Char)) :
    (PlotArea.loadFromFile parse a file).graphs
      = (linesOf (contentOf file)).map (Graph.deserialize parse emptyGraph)
    ∧ (contentOf file = [] → (PlotArea.loadFromFile parse a file).graphs = []) := by
  refine ⟨loadFromFile_graphs parse a file, fun hemp => ?_⟩
  rw [loadFromFile_graphs, hemp]
  simp [linesOf]

/-- Witness for C5: loading a missing file into a collection that holds one
curve leaves the collection empty. -/
theorem loadFromFile_spec_witness :
    contentOf none = ([] : List Char)
    ∧ (PlotArea.loadFromFile parse0 area0 none).graphs = [] :=
  ⟨rfl, (loadFromFile_spec parse0 area0 none).2 rfl⟩

/-- C10: `PlotArea::saveToFile` leaves the collection unchanged: the state
after the save, including the ordered curves and their ordered point
sequences, is the state before it. -/
theorem saveToFile_frame (render : ℝ → List Char) (a : PlotArea) :
    (PlotArea.saveToFile render a).2 = a
    ∧ (PlotArea.saveToFile render a).2.graphs.map Graph.points = a.graphs.map Graph.points :=
  ⟨rfl, rfl⟩

end Plotting
